import Mathlib

/-!
Verification of `Object-wise-sub-relation-based-process-Discovery.py`.

The module discovers object-type-wise submodels from an object-centric
event log (OCEL).  An OCEL consists of three tables: events, objects and
relations.  The code
  * extracts the universal event-object relation (`_extract_universal_relation`),
  * for each object type builds a sub-log and calls an external discovery
    service on it (`_discover_sub_model_for_object_type`),
  * aggregates per-type counts and models (`discover_object_wise_sub_models_with_counts`).

The external discovery service (`pm4py.discover_ocdfg`) is opaque to the
code; it is modelled here as an arbitrary function `discover : OCEL → M`.
Tables are modelled as lists of rows; the row attributes the code never
reads (timestamps, activity labels, ...) are collapsed into a single
opaque `activity` field on event rows.
-/

/-- Row of the `ocel.events` dataframe: the code only reads the
`ocel:eid` column; all other columns are opaque (modelled by `activity`). -/
structure EventRow where
  eid : String
  activity : String
deriving DecidableEq

/-- Row of the `ocel.objects` dataframe: the `ocel:oid` and `ocel:type`
columns. -/
structure ObjectRow where
  oid : String
  otype : String
deriving DecidableEq

/-- Row of the `ocel.relations` dataframe: the `ocel:eid` and `ocel:oid`
columns. -/
structure RelationRow where
  eid : String
  oid : String
deriving DecidableEq

/-- An OCEL log: three tables, each a list of rows in dataframe order. -/
structure OCEL where
  events : List EventRow
  objects : List ObjectRow
  relations : List RelationRow
deriving DecidableEq

/-- An entry of the universal event-object relation: the dictionaries
`{"event_id": eid, "object_id": oid, "object_type": object_id_to_type.get(oid)}`
built in `_extract_universal_relation`.  `object_type` is `none` when the
object id is absent from the Object table (Python `dict.get` returns `None`). -/
structure UniversalRelationEntry where
  event_id : String
  object_id : String
  object_type : Option String
deriving DecidableEq

/-- The mapping `object_id_to_type = dict(zip(objects_df["ocel:oid"], objects_df["ocel:type"]))`
looked up with `.get`: a Python dict built from a zip is last-write-wins,
so we search the reversed object table for the first (hence originally
last) row with the given oid. -/
def object_id_to_type (objects : List ObjectRow) (oid : String) : Option String :=
  (objects.reverse.find? (fun o => decide (o.oid = oid))).map (fun o => o.otype)

/-- One step of filling the `defaultdict(list)`:
`event_to_objects[row["ocel:eid"]].append(row["ocel:oid"])`.  A Python dict
keeps keys in insertion order, so the map is an association list: append
`oid` to the group of `eid` if a group exists, otherwise add a new group
at the end. -/
def insertRel (m : List (String × List String)) (eid oid : String) :
    List (String × List String) :=
  match m with
  | [] => [(eid, [oid])]
  | (k, vs) :: rest =>
      if k = eid then (k, vs ++ [oid]) :: rest
      else (k, vs) :: insertRel rest eid oid

/-- The `event_to_objects` mapping: fold `insertRel` over the relation rows
in dataframe order (`for _, row in relations_df.iterrows()`). -/
def event_to_objects (relations : List RelationRow) : List (String × List String) :=
  relations.foldl (fun m r => insertRel m r.eid r.oid) []

/-- Embedding of `_extract_universal_relation`: the list comprehension
`[{...} for eid, oids in event_to_objects.items() for oid in oids]`
together with `total_relation_count = len(universal_relation)`. -/
def extract_universal_relation (ocel : OCEL) : List UniversalRelationEntry × Nat :=
  let universal_relation :=
    (event_to_objects ocel.relations).flatMap
      (fun g => g.2.map
        (fun oid => UniversalRelationEntry.mk g.1 oid (object_id_to_type ocel.objects oid)))
  (universal_relation, universal_relation.length)

/-- Embedding of `relevant_event_ids = [rel["event_id"] for rel in universal_relation if rel["object_type"] == object_type]`. -/
def relevant_event_ids (universal_relation : List UniversalRelationEntry)
    (object_type : String) : List String :=
  (universal_relation.filter (fun rel => decide (rel.object_type = some object_type))).map
    (fun rel => rel.event_id)

/-- The sub-OCEL assembled in `_discover_sub_model_for_object_type`:
`sub_events`, `sub_relations` filter the original tables by
`.isin(relevant_event_ids)` (row order preserved), `related_objects`
filters the object table by membership of the oid in `sub_relations`. -/
def sub_log_for_object_type (ocel : OCEL)
    (universal_relation : List UniversalRelationEntry) (object_type : String) : OCEL :=
  let relevant : List String := relevant_event_ids universal_relation object_type
  let sub_events : List EventRow := ocel.events.filter (fun e => decide (e.eid ∈ relevant))
  let sub_relations : List RelationRow :=
    ocel.relations.filter (fun r => decide (r.eid ∈ relevant))
  let related_object_ids : List String := sub_relations.map (fun r => r.oid)
  let related_objects : List ObjectRow :=
    ocel.objects.filter (fun o => decide (o.oid ∈ related_object_ids))
  OCEL.mk sub_events related_objects sub_relations

/-- Embedding of `_discover_sub_model_for_object_type`: returns
`(len(sub_relations), pm4py.discover_ocdfg(sub_ocel))`, with the external
discovery algorithm abstracted as `discover`. -/
def discover_sub_model_for_object_type {M : Type} (discover : OCEL → M)
    (ocel : OCEL) (universal_relation : List UniversalRelationEntry)
    (object_type : String) : Nat × M :=
  let sub_ocel := sub_log_for_object_type ocel universal_relation object_type
  (sub_ocel.relations.length, discover sub_ocel)

/-- Pandas `Series.unique()`: the distinct values in first-seen order. -/
def uniqueFirstSeen (l : List String) : List String :=
  l.foldl (fun acc x => if x ∈ acc then acc else acc ++ [x]) []

/-- Embedding of `discover_object_wise_sub_models_with_counts`: extract the universal
relation, enumerate `ocel.objects["ocel:type"].unique()`, run the per-type
discovery for each type in order, and record both result dictionaries
(Python dicts keyed by the distinct types in insertion order are
association lists in enumeration order). -/
def discover_object_wise_sub_models_with_counts {M : Type} (discover : OCEL → M)
    (ocel : OCEL) : Nat × List (String × Nat) × List (String × M) :=
  let extracted := extract_universal_relation ocel
  let object_types := uniqueFirstSeen (ocel.objects.map (fun o => o.otype))
  let results := object_types.map
    (fun t => (t, discover_sub_model_for_object_type discover ocel extracted.1 t))
  (extracted.2, results.map (fun r => (r.1, r.2.1)), results.map (fun r => (r.1, r.2.2)))

/-- The concrete scenario of spec §8.6: events `{e1, e2}`, objects
`{(o1, order), (o2, item)}`, relations `{(e1,o1), (e1,o2), (e2,o2)}`. -/
def exampleOCEL : OCEL :=
  OCEL.mk
    [EventRow.mk "e1" "a1", EventRow.mk "e2" "a2"]
    [ObjectRow.mk "o1" "order", ObjectRow.mk "o2" "item"]
    [RelationRow.mk "e1" "o1", RelationRow.mk "e1" "o2", RelationRow.mk "e2" "o2"]

/-- The universal-relation entry a single relation row gives rise to. -/
def entryOf (objects : List ObjectRow) (r : RelationRow) : UniversalRelationEntry :=
  UniversalRelationEntry.mk r.eid r.oid (object_id_to_type objects r.oid)

/-- Expansion of one `event_to_objects` group into its universal-relation
entries. -/
def expandGroup (objects : List ObjectRow) (g : String × List String) :
    List UniversalRelationEntry :=
  g.2.map (fun oid => UniversalRelationEntry.mk g.1 oid (object_id_to_type objects oid))

theorem extract_universal_relation_eq (ocel : OCEL) :
    extract_universal_relation ocel =
      ((event_to_objects ocel.relations).flatMap (expandGroup ocel.objects),
       ((event_to_objects ocel.relations).flatMap (expandGroup ocel.objects)).length) := rfl

theorem event_to_objects_append (rels : List RelationRow) (r : RelationRow) :
    event_to_objects (rels ++ [r]) = insertRel (event_to_objects rels) r.eid r.oid := by
  simp [event_to_objects, List.foldl_append]

theorem flatMap_expandGroup_insertRel (objects : List ObjectRow)
    (m : List (String × List String)) (e o : String) :
    ((insertRel m e o).flatMap (expandGroup objects)).Perm
      (m.flatMap (expandGroup objects) ++
        [UniversalRelationEntry.mk e o (object_id_to_type objects o)]) := by
  induction m with
  | nil => simp [insertRel, expandGroup]
  | cons g rest ih =>
    obtain ⟨k, vs⟩ := g
    by_cases h : k = e
    · subst h
      have hins : insertRel ((k, vs) :: rest) k o = (k, vs ++ [o]) :: rest := by
        simp [insertRel]
      rw [hins]
      simp only [List.flatMap_cons, expandGroup, List.map_append, List.map_cons,
        List.map_nil, List.append_assoc]
      exact List.Perm.append_left _ List.perm_append_comm
    · have hins : insertRel ((k, vs) :: rest) e o = (k, vs) :: insertRel rest e o := by
        simp [insertRel, h]
      rw [hins]
      simp only [List.flatMap_cons, List.append_assoc]
      exact List.Perm.append_left _ ih

/-- The universal relation is, up to order, the relation table with each
row's object type resolved. -/
theorem universal_perm (ocel : OCEL) :
    ((extract_universal_relation ocel).1).Perm
      (ocel.relations.map (entryOf ocel.objects)) := by
  rw [extract_universal_relation_eq]
  induction ocel.relations using List.reverseRecOn with
  | nil => simp [event_to_objects]
  | append_singleton rels r ih =>
    rw [event_to_objects_append, List.map_append]
    exact (flatMap_expandGroup_insertRel ocel.objects (event_to_objects rels)
      r.eid r.oid).trans (ih.append_right _)

theorem universal_length (ocel : OCEL) :
    (extract_universal_relation ocel).1.length = ocel.relations.length := by
  rw [(universal_perm ocel).length_eq, List.length_map]

theorem mem_universal_iff (ocel : OCEL) (en : UniversalRelationEntry) :
    en ∈ (extract_universal_relation ocel).1 ↔
      ∃ r ∈ ocel.relations, entryOf ocel.objects r = en := by
  rw [(universal_perm ocel).mem_iff, List.mem_map]

/-- C1: the orchestrator's total count equals the number of rows in the
Relation table and the length of the extracted universal relation, for any
log (including logs whose relation rows reference unknown object ids). -/
theorem claim1_count_conservation {M : Type} (discover : OCEL → M) (ocel : OCEL) :
    (discover_object_wise_sub_models_with_counts discover ocel).1 = ocel.relations.length ∧
    (extract_universal_relation ocel).2 = ocel.relations.length ∧
    (extract_universal_relation ocel).1.length = ocel.relations.length :=
  ⟨universal_length ocel, universal_length ocel, universal_length ocel⟩

theorem mem_relevant_of_resolved (ocel : OCEL) (T : String) (r : RelationRow)
    (hr : r ∈ ocel.relations) (ht : object_id_to_type ocel.objects r.oid = some T) :
    r.eid ∈ relevant_event_ids (extract_universal_relation ocel).1 T := by
  have hmem : entryOf ocel.objects r ∈ (extract_universal_relation ocel).1 :=
    (mem_universal_iff ocel _).2 ⟨r, hr, rfl⟩
  refine List.mem_map.2 ⟨entryOf ocel.objects r, List.mem_filter.2 ⟨hmem, ?_⟩, rfl⟩
  simp [entryOf, ht]

/-- C2: every relation row whose object id resolves to type `T` has its
event id in `T`'s relevant-event set, and the row itself appears in `T`'s
`sub_relations`. -/
theorem claim2_partition_completeness (ocel : OCEL) (T : String) (r : RelationRow)
    (hr : r ∈ ocel.relations) (ht : object_id_to_type ocel.objects r.oid = some T) :
    r.eid ∈ relevant_event_ids (extract_universal_relation ocel).1 T ∧
    r ∈ (sub_log_for_object_type ocel (extract_universal_relation ocel).1 T).relations := by
  have hrel := mem_relevant_of_resolved ocel T r hr ht
  refine ⟨hrel, ?_⟩
  simp only [sub_log_for_object_type]
  exact List.mem_filter.2 ⟨hr, by simpa using hrel⟩

/-- C2 witness: the row `(e1, o1)` of the concrete scenario resolves to
type `order`, lands in the relevant-event set and in `sub_relations`. -/
theorem claim2_partition_completeness_witness :
    (RelationRow.mk "e1" "o1").eid ∈
      relevant_event_ids (extract_universal_relation exampleOCEL).1 "order" ∧
    RelationRow.mk "e1" "o1" ∈
      (sub_log_for_object_type exampleOCEL
        (extract_universal_relation exampleOCEL).1 "order").relations :=
  claim2_partition_completeness exampleOCEL "order" (RelationRow.mk "e1" "o1")
    (by decide) (by decide)

/-- C3: the per-type count returned by the per-type discovery step is the
number of rows of that type's `sub_relations` (relations touching relevant
events, not only relations of the target type); on the concrete scenario
the orchestrator returns total 3, 2 for `order` and 3 for `item`. -/
theorem claim3_sub_count_semantics :
    (∀ (M : Type) (discover : OCEL → M) (ocel : OCEL)
        (universal : List UniversalRelationEntry) (T : String),
      (discover_sub_model_for_object_type discover ocel universal T).1 =
        (sub_log_for_object_type ocel universal T).relations.length) ∧
    (discover_object_wise_sub_models_with_counts (fun _ => ()) exampleOCEL).1 = 3 ∧
    (discover_object_wise_sub_models_with_counts (fun _ => ()) exampleOCEL).2.1 =
      [("order", 2), ("item", 3)] :=
  ⟨fun _ _ _ _ _ => rfl, by decide, by decide⟩

theorem exists_row_of_mem_relevant (ocel : OCEL) (T : String) (x : String)
    (hx : x ∈ relevant_event_ids (extract_universal_relation ocel).1 T) :
    ∃ r ∈ ocel.relations, r.eid = x := by
  obtain ⟨en, hen, heq⟩ := List.mem_map.1 hx
  obtain ⟨henU, -⟩ := List.mem_filter.1 hen
  obtain ⟨r, hr, hre⟩ := (mem_universal_iff ocel en).1 henU
  rw [← hre] at heq
  exact ⟨r, hr, heq⟩

/-- C4: every event of a type's sub-log is witnessed by at least one row
of its `sub_relations`, and so is every object of the sub-log (no
orphans). -/
theorem claim4_sub_log_self_consistency (ocel : OCEL) (T : String) :
    (∀ e ∈ (sub_log_for_object_type ocel (extract_universal_relation ocel).1 T).events,
      ∃ r ∈ (sub_log_for_object_type ocel (extract_universal_relation ocel).1 T).relations,
        r.eid = e.eid) ∧
    (∀ o ∈ (sub_log_for_object_type ocel (extract_universal_relation ocel).1 T).objects,
      ∃ r ∈ (sub_log_for_object_type ocel (extract_universal_relation ocel).1 T).relations,
        r.oid = o.oid) := by
  constructor
  · intro e he
    simp only [sub_log_for_object_type, List.mem_filter] at he
    obtain ⟨he1, he2⟩ := he
    have hx : e.eid ∈ relevant_event_ids (extract_universal_relation ocel).1 T := by
      simpa using he2
    obtain ⟨r, hr, hre⟩ := exists_row_of_mem_relevant ocel T e.eid hx
    refine ⟨r, ?_, hre⟩
    simp only [sub_log_for_object_type]
    exact List.mem_filter.2 ⟨hr, by simp [hre, hx]⟩
  · intro o ho
    simp only [sub_log_for_object_type, List.mem_filter] at ho
    obtain ⟨ho1, ho2⟩ := ho
    have hmm : o.oid ∈ (ocel.relations.filter
        (fun r => decide (r.eid ∈
          relevant_event_ids (extract_universal_relation ocel).1 T))).map
        (fun r => r.oid) := by simpa using ho2
    obtain ⟨r, hr, hre⟩ := List.mem_map.1 hmm
    refine ⟨r, ?_, hre⟩
    simp only [sub_log_for_object_type]
    exact hr

/-- C4 witness: in the concrete scenario the event `e1` of the
`order` sub-log is witnessed by a row of its `sub_relations`. -/
theorem claim4_sub_log_self_consistency_witness :
    ∃ r ∈ (sub_log_for_object_type exampleOCEL
        (extract_universal_relation exampleOCEL).1 "order").relations,
      r.eid = (EventRow.mk "e1" "a1").eid :=
  (claim4_sub_log_self_consistency exampleOCEL "order").1 (EventRow.mk "e1" "a1")
    (by decide)

theorem mem_foldl_uniqueStep (l : List String) (acc : List String) (x : String) :
    (x ∈ l.foldl (fun acc y => if y ∈ acc then acc else acc ++ [y]) acc) ↔
      x ∈ acc ∨ x ∈ l := by
  induction l generalizing acc with
  | nil => simp
  | cons y ys ih =>
    rw [List.foldl_cons, ih]
    by_cases h : y ∈ acc
    · rw [if_pos h]
      simp only [List.mem_cons]
      constructor
      · rintro (hx | hx)
        · exact Or.inl hx
        · exact Or.inr (Or.inr hx)
      · rintro (hx | rfl | hx)
        · exact Or.inl hx
        · exact Or.inl h
        · exact Or.inr hx
    · rw [if_neg h]
      simp only [List.mem_append, List.mem_cons]
      constructor
      · rintro ((hx | rfl | h0) | hx)
        · exact Or.inl hx
        · exact Or.inr (Or.inl rfl)
        · cases h0
        · exact Or.inr (Or.inr hx)
      · rintro (hx | rfl | hx)
        · exact Or.inl (Or.inl hx)
        · exact Or.inl (Or.inr (Or.inl rfl))
        · exact Or.inr hx

theorem mem_uniqueFirstSeen (l : List String) (x : String) :
    x ∈ uniqueFirstSeen l ↔ x ∈ l := by
  rw [uniqueFirstSeen, mem_foldl_uniqueStep]
  simp

theorem nodup_foldl_uniqueStep (l : List String) (acc : List String)
    (hacc : acc.Nodup) :
    (l.foldl (fun acc y => if y ∈ acc then acc else acc ++ [y]) acc).Nodup := by
  induction l generalizing acc with
  | nil => simpa
  | cons y ys ih =>
    rw [List.foldl_cons]
    apply ih
    by_cases h : y ∈ acc
    · rwa [if_pos h]
    · rw [if_neg h]
      simp [List.nodup_append, hacc, h]

theorem nodup_uniqueFirstSeen (l : List String) : (uniqueFirstSeen l).Nodup :=
  nodup_foldl_uniqueStep l [] List.nodup_nil

theorem orchestrator_keys {M : Type} (discover : OCEL → M) (ocel : OCEL) :
    (discover_object_wise_sub_models_with_counts discover ocel).2.1.map Prod.fst =
      uniqueFirstSeen (ocel.objects.map (fun o => o.otype)) ∧
    (discover_object_wise_sub_models_with_counts discover ocel).2.2.map Prod.fst =
      uniqueFirstSeen (ocel.objects.map (fun o => o.otype)) := by
  constructor <;>
  · simp only [discover_object_wise_sub_models_with_counts, List.map_map]
    exact List.map_id' _

/-- C5: both result mappings are keyed by exactly the distinct object
types of the Object table, in first-seen order. -/
theorem claim5_type_coverage {M : Type} (discover : OCEL → M) (ocel : OCEL) :
    ((discover_object_wise_sub_models_with_counts discover ocel).2.1.map Prod.fst =
      uniqueFirstSeen (ocel.objects.map (fun o => o.otype))) ∧
    ((discover_object_wise_sub_models_with_counts discover ocel).2.2.map Prod.fst =
      uniqueFirstSeen (ocel.objects.map (fun o => o.otype))) ∧
    (∀ t, (t ∈ (discover_object_wise_sub_models_with_counts discover ocel).2.1.map Prod.fst)
      ↔ ∃ o ∈ ocel.objects, o.otype = t) := by
  obtain ⟨h1, h2⟩ := orchestrator_keys discover ocel
  refine ⟨h1, h2, fun t => ?_⟩
  rw [h1, mem_uniqueFirstSeen, List.mem_map]

/-- C9: the orchestrator is a pure function of the log and the external
discovery service: two runs with extensionally equal services give
identical totals, per-type counts and models, and re-running on the same
log reproduces the same result. -/
theorem claim9_orchestrator_deterministic {M : Type} (d1 d2 : OCEL → M)
    (ocel : OCEL) (h : ∀ x, d1 x = d2 x) :
    discover_object_wise_sub_models_with_counts d1 ocel =
      discover_object_wise_sub_models_with_counts d2 ocel ∧
    discover_object_wise_sub_models_with_counts d1 ocel =
      discover_object_wise_sub_models_with_counts d1 ocel := by
  have hd : d1 = d2 := funext h
  exact ⟨by rw [hd], rfl⟩

/-- C9 witness: two runs on the concrete scenario agree. -/
theorem claim9_orchestrator_deterministic_witness :
    discover_object_wise_sub_models_with_counts (fun _ => (0 : Nat)) exampleOCEL =
      discover_object_wise_sub_models_with_counts (fun _ => (0 : Nat)) exampleOCEL :=
  (claim9_orchestrator_deterministic (fun _ => (0 : Nat)) (fun _ => (0 : Nat))
    exampleOCEL (fun _ => rfl)).1

theorem object_id_to_type_eq_none (objects : List ObjectRow) (oid : String)
    (h : ∀ o ∈ objects, o.oid ≠ oid) : object_id_to_type objects oid = none := by
  have hfind : objects.reverse.find? (fun o => decide (o.oid = oid)) = none :=
    List.find?_eq_none.2 (fun o ho => by simp [h o (List.mem_reverse.1 ho)])
  rw [object_id_to_type, hfind]
  rfl

theorem universal_entry_type (ocel : OCEL) (en : UniversalRelationEntry)
    (hen : en ∈ (extract_universal_relation ocel).1) :
    en.object_type = object_id_to_type ocel.objects en.object_id := by
  obtain ⟨r, hr, hre⟩ := (mem_universal_iff ocel en).1 hen
  rw [← hre]
  rfl

/-- C6: a relation row whose object id is absent from the Object table
yields a universal-relation entry with `object_type = none`; the entry is
still counted in the total, and it can never match any target type's
partition predicate.  The embedding is total, so this is not an error. -/
theorem claim6_unresolved_object_reference (ocel : OCEL) (r : RelationRow)
    (hr : r ∈ ocel.relations) (habs : ∀ o ∈ ocel.objects, o.oid ≠ r.oid) :
    object_id_to_type ocel.objects r.oid = none ∧
    (∃ en ∈ (extract_universal_relation ocel).1,
      en.event_id = r.eid ∧ en.object_id = r.oid ∧ en.object_type = none) ∧
    (extract_universal_relation ocel).2 = ocel.relations.length ∧
    (∀ T : String, ∀ en ∈ (extract_universal_relation ocel).1,
      en.object_id = r.oid → en.object_type ≠ some T) := by
  have hnone := object_id_to_type_eq_none ocel.objects r.oid habs
  refine ⟨hnone, ?_, universal_length ocel, ?_⟩
  · exact ⟨entryOf ocel.objects r, (mem_universal_iff ocel _).2 ⟨r, hr, rfl⟩,
      rfl, rfl, by simp [entryOf, hnone]⟩
  · intro T en hen heq
    rw [universal_entry_type ocel en hen, heq, hnone]
    simp

/-- The log used as a witness for unresolved references: the relation
`(e1, ghost)` names an object id absent from the Object table. -/
def danglingOCEL : OCEL :=
  OCEL.mk
    [EventRow.mk "e1" "a1"]
    [ObjectRow.mk "o1" "order"]
    [RelationRow.mk "e1" "o1", RelationRow.mk "e1" "ghost"]

/-- C6 witness: the `ghost` object id of `danglingOCEL` resolves to `none`. -/
theorem claim6_unresolved_object_reference_witness :
    object_id_to_type danglingOCEL.objects (RelationRow.mk "e1" "ghost").oid = none :=
  (claim6_unresolved_object_reference danglingOCEL (RelationRow.mk "e1" "ghost")
    (by decide) (by decide)).1

/-- C8: membership filtering gives the relevant-event collection set
semantics: a sub-table row's multiplicity equals its multiplicity in the
original table (it is never duplicated by multiple type-`T` relations of
its event), and under the uniqueness assumptions of the data model each
matching row appears exactly once. -/
theorem claim8_relevant_set_semantics (ocel : OCEL) (T : String) :
    (∀ r : RelationRow,
      r.eid ∈ relevant_event_ids (extract_universal_relation ocel).1 T →
      List.count r (sub_log_for_object_type ocel
        (extract_universal_relation ocel).1 T).relations = List.count r ocel.relations) ∧
    (∀ e : EventRow,
      e.eid ∈ relevant_event_ids (extract_universal_relation ocel).1 T →
      List.count e (sub_log_for_object_type ocel
        (extract_universal_relation ocel).1 T).events = List.count e ocel.events) ∧
    (∀ e : EventRow, e ∈ ocel.events →
      e.eid ∈ relevant_event_ids (extract_universal_relation ocel).1 T →
      (ocel.events.map (fun ev => ev.eid)).Nodup →
      List.count e (sub_log_for_object_type ocel
        (extract_universal_relation ocel).1 T).events = 1) ∧
    (∀ r : RelationRow, r ∈ ocel.relations →
      r.eid ∈ relevant_event_ids (extract_universal_relation ocel).1 T →
      ocel.relations.Nodup →
      List.count r (sub_log_for_object_type ocel
        (extract_universal_relation ocel).1 T).relations = 1) := by
  have hrels : (sub_log_for_object_type ocel
      (extract_universal_relation ocel).1 T).relations =
      ocel.relations.filter (fun r => decide (r.eid ∈
        relevant_event_ids (extract_universal_relation ocel).1 T)) := rfl
  have hevs : (sub_log_for_object_type ocel
      (extract_universal_relation ocel).1 T).events =
      ocel.events.filter (fun e => decide (e.eid ∈
        relevant_event_ids (extract_universal_relation ocel).1 T)) := rfl
  refine ⟨?_, ?_, ?_, ?_⟩
  · intro r hrel
    rw [hrels, List.count_filter (by simpa using hrel)]
  · intro e hrel
    rw [hevs, List.count_filter (by simpa using hrel)]
  · intro e he hrel hnd
    rw [hevs, List.count_filter (by simpa using hrel)]
    exact List.count_eq_one_of_mem (List.Nodup.of_map _ hnd) he
  · intro r hrmem hrel hnd
    rw [hrels, List.count_filter (by simpa using hrel)]
    exact List.count_eq_one_of_mem hnd hrmem

/-- C8 witness: the relation row `(e1, o1)` appears exactly once in the
`order` sub-relations of the concrete scenario. -/
theorem claim8_relevant_set_semantics_witness :
    List.count (RelationRow.mk "e1" "o1")
      (sub_log_for_object_type exampleOCEL
        (extract_universal_relation exampleOCEL).1 "order").relations = 1 :=
  (claim8_relevant_set_semantics exampleOCEL "order").2.2.2 (RelationRow.mk "e1" "o1")
    (by decide) (by decide) (by decide)

/-- C10: the per-type count is at least the number of universal-relation
entries resolving to that type; it is positive as soon as one entry
resolves to the type, and zero when none does. -/
theorem claim10_sub_count_lower_bound {M : Type} (discover : OCEL → M)
    (ocel : OCEL) (T : String) :
    (((extract_universal_relation ocel).1.filter
        (fun en => decide (en.object_type = some T))).length ≤
      (discover_sub_model_for_object_type discover ocel
        (extract_universal_relation ocel).1 T).1) ∧
    ((∃ en ∈ (extract_universal_relation ocel).1, en.object_type = some T) →
      1 ≤ (discover_sub_model_for_object_type discover ocel
        (extract_universal_relation ocel).1 T).1) ∧
    ((∀ en ∈ (extract_universal_relation ocel).1, en.object_type ≠ some T) →
      (discover_sub_model_for_object_type discover ocel
        (extract_universal_relation ocel).1 T).1 = 0) := by
  have hsub : (discover_sub_model_for_object_type discover ocel
      (extract_universal_relation ocel).1 T).1 =
      (ocel.relations.filter (fun r => decide (r.eid ∈
        relevant_event_ids (extract_universal_relation ocel).1 T))).length := rfl
  have h1 : ((extract_universal_relation ocel).1.filter
      (fun en => decide (en.object_type = some T))).length ≤
      (ocel.relations.filter (fun r => decide (r.eid ∈
        relevant_event_ids (extract_universal_relation ocel).1 T))).length := by
    have hperm := (universal_perm ocel).filter
      (fun en => decide (en.object_type = some T))
    rw [hperm.length_eq, List.filter_map, List.length_map,
      ← List.countP_eq_length_filter, ← List.countP_eq_length_filter]
    apply List.countP_mono_left
    intro r hrm hp
    have ht : object_id_to_type ocel.objects r.oid = some T := by
      simpa [Function.comp, entryOf] using hp
    simpa using mem_relevant_of_resolved ocel T r hrm ht
  refine ⟨by rw [hsub]; exact h1, ?_, ?_⟩
  · rintro ⟨en, hen, htype⟩
    have hmem : en ∈ (extract_universal_relation ocel).1.filter
        (fun en => decide (en.object_type = some T)) :=
      List.mem_filter.2 ⟨hen, by simp [htype]⟩
    have hpos := List.length_pos_of_mem hmem
    rw [hsub]
    omega
  · intro hall
    have hrel : relevant_event_ids (extract_universal_relation ocel).1 T = [] := by
      rw [relevant_event_ids, List.filter_eq_nil_iff.2]
      · rfl
      · intro en hen
        simp [hall en hen]
    rw [hsub, hrel]
    simp

/-- C10 witness: one universal entry of the concrete scenario resolves to
`order`, so its sub-count is at least 1. -/
theorem claim10_sub_count_lower_bound_witness :
    1 ≤ (discover_sub_model_for_object_type (fun _ => ()) exampleOCEL
      (extract_universal_relation exampleOCEL).1 "order").1 :=
  (claim10_sub_count_lower_bound (fun _ => ()) exampleOCEL "order").2.1
    ⟨UniversalRelationEntry.mk "e1" "o1" (some "order"), by decide, by decide⟩

/-- Modelled from the spec's words (§4.1): group the Relation rows by
event id, keeping the first-seen order of event ids and the original row
order inside each group, and emit for each (event_id, object_id) pair an
entry whose object type is looked up from the Object-table mapping
(absent when the object id is unknown).  Used to compare the grouped
shape of the source's universal relation against the spec. -/
def universal_relation_spec (ocel : OCEL) : List UniversalRelationEntry :=
  (uniqueFirstSeen (ocel.relations.map (fun x => x.eid))).flatMap
    (fun e => (ocel.relations.filter (fun x => decide (x.eid = e))).map
      (fun x => UniversalRelationEntry.mk e x.oid (object_id_to_type ocel.objects x.oid)))

theorem uniqueFirstSeen_append_singleton (l : List String) (a : String) :
    uniqueFirstSeen (l ++ [a]) =
      if a ∈ uniqueFirstSeen l then uniqueFirstSeen l else uniqueFirstSeen l ++ [a] := by
  rw [uniqueFirstSeen, uniqueFirstSeen, List.foldl_append]
  rfl

theorem insertRel_absent (m : List (String × List String)) (e o : String)
    (h : ∀ g ∈ m, g.1 ≠ e) : insertRel m e o = m ++ [(e, [o])] := by
  induction m with
  | nil => rfl
  | cons g rest ih =>
    obtain ⟨k, vs⟩ := g
    have hk : k ≠ e := h (k, vs) (List.mem_cons_self _ _)
    rw [insertRel, if_neg hk]
    rw [ih (fun g hg => h g (List.mem_cons_of_mem _ hg))]
    rfl

theorem insertRel_map_mem (u : List String) (f : String → List String)
    (a o : String) (hnd : u.Nodup) (ha : a ∈ u) :
    insertRel (u.map (fun e => (e, f e))) a o =
      u.map (fun e => (e, if e = a then f e ++ [o] else f e)) := by
  induction u with
  | nil => cases ha
  | cons e u' ih =>
    rw [List.map_cons, List.map_cons]
    by_cases he : e = a
    · subst he
      rw [insertRel, if_pos rfl, if_pos rfl]
      have hnotin : e ∉ u' := (List.nodup_cons.1 hnd).1
      have : u'.map (fun x => (x, if x = e then f x ++ [o] else f x)) =
          u'.map (fun x => (x, f x)) := by
        apply List.map_congr_left
        intro x hx
        have hxe : x ≠ e := fun hc => hnotin (hc ▸ hx)
        rw [if_neg hxe]
      rw [this]
    · have ha' : a ∈ u' := by
        rcases List.mem_cons.1 ha with h1 | h1
        · exact absurd h1.symm he
        · exact h1
      rw [insertRel, if_neg he, if_neg he, ih (List.nodup_cons.1 hnd).2 ha']

theorem filter_eid_eq_nil (rels : List RelationRow) (a : String)
    (h : a ∉ rels.map (fun x => x.eid)) :
    rels.filter (fun x => decide (x.eid = a)) = [] := by
  apply List.filter_eq_nil_iff.2
  intro r hr
  simp only [decide_eq_true_eq]
  intro hc
  exact h (List.mem_map.2 ⟨r, hr, hc⟩)

/-- The `event_to_objects` association list is exactly the group-by of the
relation rows: keys are the event ids in first-seen order, each key's
values are the object ids of its rows in original row order. -/
theorem event_to_objects_eq (rels : List RelationRow) :
    event_to_objects rels =
      (uniqueFirstSeen (rels.map (fun x => x.eid))).map
        (fun e => (e, (rels.filter (fun x => decide (x.eid = e))).map (fun x => x.oid))) := by
  induction rels using List.reverseRecOn with
  | nil => rfl
  | append_singleton rels r ih =>
    rw [event_to_objects_append, ih, List.map_append, List.map_cons, List.map_nil,
      uniqueFirstSeen_append_singleton]
    by_cases h : r.eid ∈ uniqueFirstSeen (rels.map (fun x => x.eid))
    · rw [if_pos h, insertRel_map_mem _ _ _ _ (nodup_uniqueFirstSeen _) h]
      apply List.map_congr_left
      intro e he
      rw [List.filter_append]
      by_cases he2 : e = r.eid
      · subst he2
        rw [if_pos rfl]
        simp
      · rw [if_neg he2]
        have hne' : ¬r.eid = e := fun hc => he2 hc.symm
        have : List.filter (fun x => decide (x.eid = e)) [r] = [] := by
          simp [hne']
        rw [this, List.append_nil]
    · rw [if_neg h, insertRel_absent, List.map_append]
      · congr 1
        · apply List.map_congr_left
          intro e he
          have hne : e ≠ r.eid := fun hc => h (hc ▸ he)
          have hne' : ¬r.eid = e := fun hc => hne hc.symm
          rw [List.filter_append]
          have : List.filter (fun x => decide (x.eid = e)) [r] = [] := by
            simp [hne']
          rw [this, List.append_nil]
        · have hnil : rels.filter (fun x => decide (x.eid = r.eid)) = [] :=
            filter_eid_eq_nil rels r.eid
              (fun hc => h ((mem_uniqueFirstSeen _ _).2 hc))
          rw [List.map_cons, List.map_nil, List.filter_append, hnil]
          simp
      · intro g hg
        obtain ⟨e, he, hge⟩ := List.mem_map.1 hg
        rw [← hge]
        exact fun hc => h (hc ▸ he)

/-- C7: the extracted universal relation has exactly the grouped shape the
spec describes: entries grouped by event id, groups in first-seen order of
event ids, row order preserved inside each group, object types resolved
through the Object-table mapping. -/
theorem claim7_universal_grouped_shape (ocel : OCEL) :
    (extract_universal_relation ocel).1 = universal_relation_spec ocel := by
  have h1 : (extract_universal_relation ocel).1 =
      (event_to_objects ocel.relations).flatMap (expandGroup ocel.objects) := rfl
  rw [h1, event_to_objects_eq, universal_relation_spec, List.flatMap_map]
  congr 1
  funext e
  simp [expandGroup, List.map_map, Function.comp]
